import Mathlib

/-!
Verification of the `gobloom` library (single and scalable Bloom filters).

The embedding follows the Go sources `bloom.go`, `scalable_bloom.go`,
`murmur.go`, `mutex.go` and `interface.go`:

* Byte sequences are `List Nat`; a `hash.Hash64` used in the source's
  reset/write/sum pattern is a deterministic map from the data to a 64-bit
  digest, so it is embedded as a pure function `Bytes → Nat` whose value is
  reduced by `uint64` at the `Sum64` call site.
* The concrete murmur3 family (`github.com/spaolacci/murmur3`, an external
  dependency outside this repository) is abstracted as a parameter
  `murmur : SeedHash` giving, for each seed, a digest function; the library's
  own `MurMur3Hasher.GetHashes` is embedded on top of it.
* Go `float64` arithmetic (`math.Log`, `math.Ceil`, `math.Pow`, float
  comparisons) is idealised as real arithmetic over `ℝ`; the affected
  definitions are `noncomputable` for that reason.
* Go panics (nil-pointer dereference when a layer is `nil`, index out of
  range) are modelled explicitly: a layer list entry is `Option BloomFilter`
  (`none` is a nil `*BloomFilter`), `ScalableBloomFilter.Add` returns a flag
  that is `false` when the call panics part-way (together with the partially
  mutated state the panic leaves behind), and `ScalableBloomFilter.Test`
  returns `none` when it panics.
* The mutex is recorded structurally (which lock policy the filter owns) but
  lock/unlock operations are no-ops in this single-threaded semantics.
-/

namespace GoBloom

/-- A byte sequence (`[]byte`). -/
abbrev Bytes := List Nat

/-- A deterministic 64-bit hash function (`hash.Hash64` in its
reset/write/sum usage pattern). -/
abbrev HashFn := Bytes → Nat

/-- The `Hasher` interface: `GetHashes(n)` returns `n` hash functions. -/
abbrev HasherFn := Nat → List HashFn

/-- The external murmur3 family: seed to digest function
(`murmur3.New64WithSeed`). -/
abbrev SeedHash := Nat → Bytes → Nat

/-- Go conversion to `uint64`. -/
def uint64 (x : Nat) : Nat := x % 2 ^ 64

/-- Go conversion to `uint32`. -/
def uint32 (x : Nat) : Nat := x % 2 ^ 32

/-- The two concrete mutex implementations of `mutex.go`. -/
inductive MutexKind
  | exclusive
  | readWrite
deriving DecidableEq, Repr

/-- The error values produced by the constructors (`bloom.go`,
`scalable_bloom.go`, `mutex.go`); the formatted message payloads are
dropped. All of them fall under the spec's `InvalidParameter` /
`InvalidLockPolicy` taxonomy. -/
inductive GoErr
  | numberOfElementsZero    -- "number of elements cannot be 0"
  | falsePositiveRateRange  -- "false positive rate must be between 0 and 1"
  | hasherNil               -- "hasher cannot be nil"
  | invalidLockType         -- ErrInvalidLockType
  | scalableInitialSize     -- "invalid initial size, must be greater than 0"
  | scalableFpRate          -- "invalid false positive rate, ..."
  | scalableFpGrowth        -- "invalid false positive growth rate, ..."
deriving DecidableEq, Repr

/-- `NewMutex` from `mutex.go`. `LockType` is a Go integer enum:
0 = Default, 1 = NoLock, 2 = ExclusiveLock, 3 = ReadWriteLock.
NoLock yields a nil mutex, unrecognized selectors (including the raw
Default value, which `applyDefaults` always rewrites before this call)
yield `ErrInvalidLockType`. -/
def NewMutex : Nat → Except GoErr (Option MutexKind)
  | 1 => .ok none
  | 2 => .ok (some .exclusive)
  | 3 => .ok (some .readWrite)
  | _ => .error .invalidLockType

/-- `BloomFilter` from `bloom.go`: bit count `m`, the bit array as a list of
64-bit words, hash count `k`, the hash functions, and the owned mutex
(recorded structurally; `none` is a nil mutex under the NoLock policy). -/
structure BloomFilter where
  m : Nat
  bitSet : List Nat
  k : Nat
  hashes : List HashFn
  mutex : Option MutexKind

/-- `BloomFilter.Add` from `bloom.go`: for each hash function, reduce the
digest modulo `m`, split into word index and bit position, and set that bit.
Locking is a no-op here. (In Go an out-of-range `index` would panic; for
constructed filters the index is always in range, see the bounds claims.) -/
def BloomFilter.Add (bf : BloomFilter) (data : Bytes) : BloomFilter :=
  { bf with
    bitSet := bf.hashes.foldl (fun bs h =>
      let hashValue := uint64 (h data) % bf.m
      let index := hashValue / 64
      let position := hashValue % 64
      bs.set index (bs.getD index 0 ||| 1 <<< position)) bf.bitSet }

/-- `BloomFilter.Test` from `bloom.go`: true iff for every hash function the
probed bit is set; the Go loop returns false at the first unset bit, which
is what `List.all` does. -/
def BloomFilter.Test (bf : BloomFilter) (data : Bytes) : Bool :=
  bf.hashes.all fun h =>
    let hashValue := uint64 (h data) % bf.m
    let index := hashValue / 64
    let position := hashValue % 64
    bf.bitSet.getD index 0 &&& 1 <<< position != 0

/-- `NewMurMur3Hasher(...).GetHashes` from `murmur.go`: `n` murmur3 hashers
seeded `uint32(0) .. uint32(n-1)`. -/
def NewMurMur3Hasher (murmur : SeedHash) : HasherFn :=
  fun n => (List.range n).map fun i => murmur (uint32 i)

/-- `Params` from `bloom.go`; `Hasher` is a nil-able interface value and
`LockType` defaults to the Go zero value 0 (= Default). -/
structure Params where
  N : Nat
  FalsePositiveRate : ℝ
  Hasher : Option HasherFn := none
  LockType : Nat := 0

/-- `applyDefaults` from `bloom.go`: nil hasher becomes the murmur3 hasher,
LockType Default (0) becomes ExclusiveLock (2). -/
def applyDefaults (murmur : SeedHash) (p : Params) : Params :=
  let p1 := match p.Hasher with
    | none => { p with Hasher := some (NewMurMur3Hasher murmur) }
    | some _ => p
  if p1.LockType = 0 then { p1 with LockType := 2 } else p1

/-- `getOptimalParams` from `bloom.go`, with `float64` arithmetic idealised
over `ℝ`: `m = uint64(Ceil(-1 * n * Log p / Log2²))`, clamped to 1 if zero,
then `k = uint64(Ceil((m / n) * Log 2))`, clamped to 1 if zero.
(`Int.toNat` sends the negative ceilings that can only arise for `p ≥ 1`,
which validation excludes, to 0.) -/
noncomputable def getOptimalParams (n : Nat) (p : ℝ) : Nat × Nat :=
  let m0 := (⌈(-1 : ℝ) * (n : ℝ) * Real.log p / (Real.log 2) ^ 2⌉).toNat
  let m := if m0 = 0 then 1 else m0
  let k0 := (⌈((m : ℝ) / (n : ℝ)) * Real.log 2⌉).toNat
  let k := if k0 = 0 then 1 else k0
  (m, k)

/-- `New` from `bloom.go`: apply defaults, validate `N` and the rate, reject
a nil hasher, derive `(m, k)`, allocate `(m+63)/64` zero words, build the
mutex, and take whatever list of hash functions the provider returns for
`k`. -/
noncomputable def New (murmur : SeedHash) (p0 : Params) : Except GoErr BloomFilter :=
  let p := applyDefaults murmur p0
  if p.N = 0 then .error .numberOfElementsZero
  else if p.FalsePositiveRate ≤ 0 ∨ 1 ≤ p.FalsePositiveRate then .error .falsePositiveRateRange
  else match p.Hasher with
    | none => .error .hasherNil
    | some hasher =>
      let mk := getOptimalParams p.N p.FalsePositiveRate
      let bitSetSize := (mk.1 + 63) / 64
      match NewMutex p.LockType with
      | .error e => .error e
      | .ok mu =>
        .ok { m := mk.1, k := mk.2, bitSet := List.replicate bitSetSize 0,
              hashes := hasher mk.2, mutex := mu }

/-- `ScalableBloomFilter` from `scalable_bloom.go`. A layer is
`Option BloomFilter`: `none` is a nil `*BloomFilter` pointer (which the
growth path can append when the inner `New` fails). -/
structure ScalableBloomFilter where
  filters : List (Option BloomFilter)
  n : Nat
  fpRate : ℝ
  fpGrowth : ℝ

/-- `ParamsScalable` from `scalable_bloom.go`. -/
structure ParamsScalable where
  InitialSize : Nat
  FalsePositiveRate : ℝ
  FalsePositiveGrowth : ℝ
  Hasher : Option HasherFn := none
  LockType : Nat := 0

/-- `applyDefaultsScalable` from `scalable_bloom.go`. -/
def applyDefaultsScalable (murmur : SeedHash) (p : ParamsScalable) : ParamsScalable :=
  let p1 := match p.Hasher with
    | none => { p with Hasher := some (NewMurMur3Hasher murmur) }
    | some _ => p
  if p1.LockType = 0 then { p1 with LockType := 2 } else p1

/-- `NewScalable` from `scalable_bloom.go`: validate size, rate and growth,
build the first layer through `New`, start with `n = 0`.
(`InitialSize <= 0` on a Go `uint64` means `= 0`.) -/
noncomputable def NewScalable (murmur : SeedHash) (p0 : ParamsScalable) :
    Except GoErr ScalableBloomFilter :=
  let p := applyDefaultsScalable murmur p0
  if p.InitialSize = 0 then .error .scalableInitialSize
  else if p.FalsePositiveRate ≤ 0 ∨ 1 ≤ p.FalsePositiveRate then .error .scalableFpRate
  else if p.FalsePositiveGrowth ≤ 0 then .error .scalableFpGrowth
  else
    match New murmur { N := p.InitialSize, FalsePositiveRate := p.FalsePositiveRate,
                       Hasher := p.Hasher, LockType := p.LockType } with
    | .error e => .error e
    | .ok bf =>
      .ok { filters := [some bf], n := 0, fpRate := p.FalsePositiveRate,
            fpGrowth := p.FalsePositiveGrowth }

/-- The inner loop of `ScalableBloomFilter.Add`:
`for i := 0; i < filter.k; i++ { filter.Add(data) }` — the same data is
added `k` times to one layer. -/
def addLoop (f : BloomFilter) (data : Bytes) : Nat → BloomFilter
  | 0 => f
  | i + 1 => addLoop (f.Add data) data i

/-- The inner loop of `ScalableBloomFilter.Test`:
`for i := 0; i < filter.k; i++ { b := filter.Test(data); if !b { break } }`
— `k` conjoined tests of the same layer with short-circuit. -/
def testLoop (f : BloomFilter) (data : Bytes) : Nat → Bool
  | 0 => true
  | i + 1 => f.Test data && testLoop f data i

/-- The outer loop of `ScalableBloomFilter.Add` over the layer list, oldest
first. A `none` layer makes Go dereference a nil pointer (`filter.k`): the
loop panics there, leaving the earlier layers already mutated and the rest
untouched; the Boolean is `false` on such a panic. -/
def addLayers (data : Bytes) : List (Option BloomFilter) → List (Option BloomFilter) × Bool
  | [] => ([], true)
  | none :: rest => (none :: rest, false)
  | some f :: rest =>
    let r := addLayers data rest
    (some (addLoop f data f.k) :: r.1, r.2)

/-- `ScalableBloomFilter.Add` from `scalable_bloom.go`. Returns
`(completed, state)`: `completed = false` models a panic (nil layer, or
indexing `filters[len-1]` on an empty layer list), with the state the panic
leaves behind. On the normal path it increments `n`, compares `n` against
`float64(m_last) * Log(growth) / Log 2`, and if exceeded appends
`New(Params{N: n, FalsePositiveRate: fpRate * growth^len})` — dropping the
error (`nbf, _ :=`), so a failed construction appends a nil layer. The Go
function's returned `error` is nil on every completed path, which is why
the completed case carries no error value here. -/
noncomputable def ScalableBloomFilter.Add (murmur : SeedHash) (sbf : ScalableBloomFilter)
    (data : Bytes) : Bool × ScalableBloomFilter :=
  let r := addLayers data sbf.filters
  if r.2 = false then (false, { sbf with filters := r.1 })
  else
    let n := sbf.n + 1
    match r.1.getLast? with
    | none => (false, { sbf with filters := r.1, n := n })
    | some none => (false, { sbf with filters := r.1, n := n })
    | some (some currentFilter) =>
      let currentCapacity : ℝ := (currentFilter.m : ℝ) * Real.log sbf.fpGrowth / Real.log 2
      if (n : ℝ) > currentCapacity then
        let newFpRate := sbf.fpRate * sbf.fpGrowth ^ r.1.length
        let nbf := (New murmur { N := n, FalsePositiveRate := newFpRate }).toOption
        (true, { sbf with filters := r.1 ++ [nbf], n := n })
      else (true, { sbf with filters := r.1, n := n })

/-- The layer loop of `ScalableBloomFilter.Test`, oldest first: return true
at the first layer whose `k`-fold test succeeds, false if none does;
`none` models the nil-pointer panic on a nil layer. -/
def testLayers (data : Bytes) : List (Option BloomFilter) → Option Bool
  | [] => some false
  | none :: _ => none
  | some f :: rest => if testLoop f data f.k then some true else testLayers data rest

/-- `ScalableBloomFilter.Test` from `scalable_bloom.go` (its Go `error`
result is nil on every non-panicking path). -/
def ScalableBloomFilter.Test (sbf : ScalableBloomFilter) (data : Bytes) : Option Bool :=
  testLayers data sbf.filters

/-! ### Derived notions used in the claim statements -/

/-- The word index probed by `Add`/`Test` for one hash function. -/
def probeIndex (bf : BloomFilter) (h : HashFn) (data : Bytes) : Nat :=
  uint64 (h data) % bf.m / 64

/-- The in-word bit position probed by `Add`/`Test` for one hash function. -/
def probePos (bf : BloomFilter) (h : HashFn) (data : Bytes) : Nat :=
  uint64 (h data) % bf.m % 64

/-- The bit probed for `h` on `data` is set in `bf`'s bit array. -/
def probeSet (bf : BloomFilter) (h : HashFn) (data : Bytes) : Prop :=
  Nat.testBit (bf.bitSet.getD (probeIndex bf h data) 0) (probePos bf h data)

/-- Structural well-formedness that `New` establishes: at least one bit and
a bit array of exactly `(m+63)/64` words. -/
def WF (bf : BloomFilter) : Prop :=
  1 ≤ bf.m ∧ bf.bitSet.length = (bf.m + 63) / 64

/-- A sequence of subsequent `Add` calls on a single filter. -/
def addMany (bf : BloomFilter) (ds : List Bytes) : BloomFilter :=
  ds.foldl BloomFilter.Add bf

/-- A sequence of subsequent `Add` calls on a scalable filter, keeping the
state each call leaves behind (also after a panic). -/
noncomputable def evolve (murmur : SeedHash) (sbf : ScalableBloomFilter)
    (ds : List Bytes) : ScalableBloomFilter :=
  ds.foldl (fun s d => (ScalableBloomFilter.Add murmur s d).2) sbf

/-! ### The bit-setting fold of `BloomFilter.Add` -/

/-- One step of the `Add` fold: set the probed bit of one hash function. -/
def setStep (m : Nat) (data : Bytes) (bs : List Nat) (h : HashFn) : List Nat :=
  bs.set (uint64 (h data) % m / 64)
    (bs.getD (uint64 (h data) % m / 64) 0 ||| 1 <<< (uint64 (h data) % m % 64))

/-- All of this data's probed bits are set in the filter. -/
def probesAll (bf : BloomFilter) (data : Bytes) : Prop :=
  ∀ h ∈ bf.hashes, probeSet bf h data

/-! ### The head-layer invariant behind the no-false-negative property -/

/-- The first (oldest) layer is a well-formed filter whose verdict on `x` is
true: either its probed bits for `x` are all set, or its `k` is zero (then
the per-layer test loop of the scalable `Test` runs zero iterations and
reports presence vacuously). -/
def headOk (s : ScalableBloomFilter) (x : Bytes) : Prop :=
  ∃ f rest, s.filters = some f :: rest ∧ WF f ∧ (f.k = 0 ∨ probesAll f x)

/-! ### Concrete instances used by the witnesses -/

/-- A trivial deterministic hash function (constant 0) for concrete runs. -/
def zeroHash : HashFn := fun _ => 0

/-- A trivial stand-in environment for the external murmur3 family. -/
def murmur0 : SeedHash := fun _ _ => 0

/-- A small concrete well-formed single filter. -/
def bfW : BloomFilter :=
  { m := 1, bitSet := [0], k := 1, hashes := [zeroHash], mutex := none }

/-- A small concrete scalable filter whose only layer is `bfW`. -/
noncomputable def sbfW : ScalableBloomFilter :=
  { filters := [some bfW], n := 0, fpRate := 1 / 2, fpGrowth := 2 }

/-! ### Claim C10 -/

/-- Every probe word index of every hash function on every input stays
below the bit array length. -/
def probeIndexOk (bf : BloomFilter) : Prop :=
  ∀ h ∈ bf.hashes, ∀ d : Bytes, probeIndex bf h d < bf.bitSet.length

/-! ### Claim C5 -/

/-- The parameter derivation exactly as the spec words it:
`m = ceil(-n·ln(p)/(ln 2)²)` clamped to a minimum of 1, and
`k = ceil((m/n)·ln 2)` clamped to a minimum of 1. -/
noncomputable def specOptimalParams (n : Nat) (p : ℝ) : Nat × Nat :=
  let m := max 1 (⌈-((n : ℝ) * Real.log p) / (Real.log 2) ^ 2⌉).toNat
  (m, max 1 (⌈((m : ℝ) / (n : ℝ)) * Real.log 2⌉).toNat)

/-! ### Claim C6 -/

/-- The per-layer verdict of the scalable `Test`: the `k`-fold test loop of
one layer (false on a nil layer, where Go would panic). -/
def layerVerdict (of : Option BloomFilter) (x : Bytes) : Bool :=
  match of with
  | some f => testLoop f x f.k
  | none => false

/-- A provider returning the constant-zero hash function, `n` times. -/
def constHasher : HasherFn := fun n => (List.range n).map fun _ => zeroHash

/-- A provider that ignores the requested count and returns no hash
functions at all. -/
def emptyHasher : HasherFn := fun _ => []

/- Scenario A: `NewScalable(InitialSize 1, rate 9/10, growth 6/5)` with an
injected trivial hasher and the NoLock policy. Layer 0 gets `(m, k) = (1, 1)`;
the very first `Add` exceeds the capacity threshold
`1 * ln(6/5) / ln 2 < 1`, and the new layer's rate `9/10 * (6/5)^1 = 27/25`
is ≥ 1, so the growth-time `New` fails and a nil layer is appended. -/

noncomputable def pAinner : Params :=
  { N := 1, FalsePositiveRate := 9 / 10, Hasher := some constHasher, LockType := 1 }

def bfA : BloomFilter :=
  { m := 1, bitSet := List.replicate 1 0, k := 1, hashes := constHasher 1, mutex := none }

noncomputable def pA : ParamsScalable :=
  { InitialSize := 1, FalsePositiveRate := 9 / 10, FalsePositiveGrowth := 6 / 5,
    Hasher := some constHasher, LockType := 1 }

noncomputable def sA0 : ScalableBloomFilter :=
  { filters := [some bfA], n := 0, fpRate := 9 / 10, fpGrowth := 6 / 5 }

/- Scenario B: `NewScalable(InitialSize 1, rate 1/2, growth 1/2)` with the
trivial hasher and the ReadWriteLock policy. Layer 0 gets `(m, k) = (2, 2)`;
since `ln(1/2) < 0` the capacity threshold is negative and the first `Add`
grows; the new layer's rate `1/2 * (1/2)^1 = 1/4` is valid, and the new
layer is built with the DEFAULT murmur3 hasher and DEFAULT exclusive lock
(`New(Params{N, FalsePositiveRate})` passes neither the hasher nor the
lock policy), with `(m, k) = (3, 3)`. -/

noncomputable def pB : ParamsScalable :=
  { InitialSize := 1, FalsePositiveRate := 1 / 2, FalsePositiveGrowth := 1 / 2,
    Hasher := some constHasher, LockType := 3 }

def bfB : BloomFilter :=
  { m := 2, bitSet := List.replicate 1 0, k := 2, hashes := constHasher 2,
    mutex := some .readWrite }

noncomputable def sB0 : ScalableBloomFilter :=
  { filters := [some bfB], n := 0, fpRate := 1 / 2, fpGrowth := 1 / 2 }

noncomputable def pBinner : Params :=
  { N := 1, FalsePositiveRate := 1 / 2, Hasher := some constHasher, LockType := 3 }

/-- The layer the growth path of scenario B appends: defaults everywhere. -/
noncomputable def pB2 : Params := { N := 1, FalsePositiveRate := 1 / 4 }

def bfB2 : BloomFilter :=
  { m := 3, bitSet := List.replicate 1 0, k := 3, hashes := NewMurMur3Hasher murmur0 3,
    mutex := some .exclusive }

/- Scenario C: a single filter whose injected provider returns no hash
functions although `k = 2` are requested; `New` accepts it. -/

noncomputable def pC : Params :=
  { N := 1, FalsePositiveRate := 1 / 2, Hasher := some emptyHasher, LockType := 1 }

def bfC : BloomFilter :=
  { m := 2, bitSet := List.replicate 1 0, k := 2, hashes := emptyHasher 2, mutex := none }

/- Scenario D: a single filter with all defaults (murmur3 provider,
exclusive lock). -/

noncomputable def pD : Params := { N := 1, FalsePositiveRate := 1 / 2 }

def bfD : BloomFilter :=
  { m := 2, bitSet := List.replicate 1 0, k := 2, hashes := NewMurMur3Hasher murmur0 2,
    mutex := some .exclusive }

/-! ## Theorems -/

/-! ### List and bit-level helper lemmas -/

theorem getD_set_self {l : List Nat} {i : Nat} (h : i < l.length) (a : Nat) :
    (l.set i a).getD i 0 = a := by
  induction l generalizing i with
  | nil => simp at h
  | cons x xs ih =>
    cases i with
    | zero => simp
    | succ j => simpa using ih (by simpa using h)

theorem set_of_length_le {l : List Nat} {i : Nat} (h : l.length ≤ i) (a : Nat) :
    l.set i a = l := by
  induction l generalizing i with
  | nil => simp
  | cons x xs ih =>
    cases i with
    | zero => simp at h
    | succ j => simpa using ih (by simpa using h)

theorem getD_set_ne (l : List Nat) (a : Nat) {i j : Nat} (h : i ≠ j) :
    (l.set i a).getD j 0 = l.getD j 0 := by
  induction l generalizing i j with
  | nil => simp
  | cons x xs ih =>
    cases i with
    | zero =>
      cases j with
      | zero => exact absurd rfl h
      | succ _ => simp
    | succ i' =>
      cases j with
      | zero => simp
      | succ j' => simpa using ih (fun hh => h (by simp [hh]))

theorem and_mask_testBit (x p : Nat) : (x &&& 1 <<< p != 0) = Nat.testBit x p := by
  rw [Nat.shiftLeft_eq, one_mul, Nat.and_two_pow]
  cases h : Nat.testBit x p
  · simp
  · simp [Nat.pow_eq_zero]

theorem testBit_lor_left {x : Nat} (y : Nat) {p : Nat} (h : Nat.testBit x p = true) :
    Nat.testBit (x ||| y) p = true := by
  rw [Nat.testBit_lor, h, Bool.true_or]

theorem testBit_lor_self (x p : Nat) : Nat.testBit (x ||| 1 <<< p) p = true := by
  rw [Nat.testBit_lor, Nat.shiftLeft_eq, one_mul, Nat.testBit_two_pow_self, Bool.or_true]

/-- The word index probed for any digest is within the `(m+63)/64`-word
bit array as soon as `m ≥ 1`. -/
theorem probe_index_lt (x m : Nat) (hm : 1 ≤ m) : x % m / 64 < (m + 63) / 64 := by
  have h1 : x % m < m := Nat.mod_lt _ hm
  have h2 : x % m / 64 ≤ (m - 1) / 64 := Nat.div_le_div_right (by omega)
  have h3 : (m - 1 + 64) / 64 = (m - 1) / 64 + 1 := Nat.add_div_right _ (by norm_num)
  have he : m - 1 + 64 = m + 63 := by omega
  omega

theorem Add_eq_foldl (bf : BloomFilter) (data : Bytes) :
    bf.Add data = { bf with bitSet := bf.hashes.foldl (setStep bf.m data) bf.bitSet } := rfl

theorem length_setStep (m : Nat) (d : Bytes) (bs : List Nat) (h : HashFn) :
    (setStep m d bs h).length = bs.length := by
  simp [setStep]

theorem length_foldl_setStep (m : Nat) (d : Bytes) (hs : List HashFn) (bs : List Nat) :
    (hs.foldl (setStep m d) bs).length = bs.length := by
  induction hs generalizing bs with
  | nil => rfl
  | cons h t ih => rw [List.foldl_cons, ih, length_setStep]

theorem testBit_setStep_mono {bs : List Nat} {i p : Nat} (m : Nat) (d : Bytes) (h : HashFn)
    (hset : Nat.testBit (bs.getD i 0) p = true) :
    Nat.testBit ((setStep m d bs h).getD i 0) p = true := by
  unfold setStep
  by_cases hij : uint64 (h d) % m / 64 = i
  · rw [hij]
    by_cases hlen : i < bs.length
    · rw [getD_set_self hlen]
      exact testBit_lor_left _ (hij ▸ hset)
    · rw [set_of_length_le (by omega)]
      exact hset
  · rw [getD_set_ne _ _ hij]
    exact hset

theorem testBit_setStep_self (m : Nat) (d : Bytes) (h : HashFn) (bs : List Nat)
    (hlen : uint64 (h d) % m / 64 < bs.length) :
    Nat.testBit ((setStep m d bs h).getD (uint64 (h d) % m / 64) 0)
      (uint64 (h d) % m % 64) = true := by
  unfold setStep
  rw [getD_set_self hlen]
  exact testBit_lor_self _ _

theorem testBit_foldl_setStep_mono (m : Nat) (d : Bytes) (hs : List HashFn) {bs : List Nat}
    {i p : Nat} (hset : Nat.testBit (bs.getD i 0) p = true) :
    Nat.testBit ((hs.foldl (setStep m d) bs).getD i 0) p = true := by
  induction hs generalizing bs with
  | nil => exact hset
  | cons h t ih => exact ih (testBit_setStep_mono m d h hset)

theorem testBit_foldl_setStep_probe (m : Nat) (d : Bytes) (hs : List HashFn)
    {bs : List Nat} (hm : 1 ≤ m) (hlen : bs.length = (m + 63) / 64)
    {h : HashFn} (hmem : h ∈ hs) :
    Nat.testBit ((hs.foldl (setStep m d) bs).getD (uint64 (h d) % m / 64) 0)
      (uint64 (h d) % m % 64) = true := by
  induction hs generalizing bs with
  | nil => cases hmem
  | cons h' t ih =>
    rw [List.foldl_cons]
    rcases List.mem_cons.mp hmem with heq | htail
    · subst heq
      exact testBit_foldl_setStep_mono m d t
        (testBit_setStep_self m d h bs (hlen ▸ probe_index_lt _ _ hm))
    · exact ih (by rw [length_setStep]; exact hlen) htail

/-! ### Field preservation and probe lemmas for `BloomFilter` -/

theorem Add_m (bf : BloomFilter) (d : Bytes) : (bf.Add d).m = bf.m := rfl

theorem Add_k (bf : BloomFilter) (d : Bytes) : (bf.Add d).k = bf.k := rfl

theorem Add_hashes (bf : BloomFilter) (d : Bytes) : (bf.Add d).hashes = bf.hashes := rfl

theorem Add_mutex (bf : BloomFilter) (d : Bytes) : (bf.Add d).mutex = bf.mutex := rfl

theorem Add_length (bf : BloomFilter) (d : Bytes) :
    (bf.Add d).bitSet.length = bf.bitSet.length := by
  rw [Add_eq_foldl]
  exact length_foldl_setStep _ _ _ _

theorem WF_Add (bf : BloomFilter) (d : Bytes) (h : WF bf) : WF (bf.Add d) :=
  ⟨h.1, by rw [Add_length, Add_m]; exact h.2⟩

theorem probeSet_testBit (bf : BloomFilter) (h : HashFn) (d : Bytes) :
    probeSet bf h d ↔
      Nat.testBit (bf.bitSet.getD (uint64 (h d) % bf.m / 64) 0)
        (uint64 (h d) % bf.m % 64) = true := Iff.rfl

theorem probesAll_Add_self (bf : BloomFilter) (d : Bytes) (hwf : WF bf) :
    probesAll (bf.Add d) d := by
  intro h hmem
  rw [Add_hashes] at hmem
  rw [probeSet_testBit, Add_m, Add_eq_foldl]
  exact testBit_foldl_setStep_probe bf.m d bf.hashes hwf.1 hwf.2 hmem

theorem probesAll_Add_mono (bf : BloomFilter) (d d' : Bytes) (hp : probesAll bf d) :
    probesAll (bf.Add d') d := by
  intro h hmem
  rw [Add_hashes] at hmem
  rw [probeSet_testBit, Add_m, Add_eq_foldl]
  exact testBit_foldl_setStep_mono bf.m d' bf.hashes (hp h hmem)

theorem Test_eq_probes (bf : BloomFilter) (d : Bytes) :
    bf.Test d = bf.hashes.all fun h =>
      Nat.testBit (bf.bitSet.getD (uint64 (h d) % bf.m / 64) 0)
        (uint64 (h d) % bf.m % 64) := by
  unfold BloomFilter.Test
  congr 1
  funext h
  exact and_mask_testBit _ _

theorem Test_true_of_probesAll (bf : BloomFilter) (d : Bytes) (hp : probesAll bf d) :
    bf.Test d = true := by
  rw [Test_eq_probes]
  rw [List.all_eq_true]
  intro h hmem
  exact (probeSet_testBit bf h d).mp (hp h hmem)

theorem Test_probesAll_iff (bf : BloomFilter) (d : Bytes) :
    bf.Test d = true ↔ probesAll bf d := by
  rw [Test_eq_probes, List.all_eq_true]
  constructor
  · intro hall h hmem
    exact (probeSet_testBit bf h d).mpr (hall h hmem)
  · intro hp h hmem
    exact (probeSet_testBit bf h d).mp (hp h hmem)

/-! ### Sequences of `Add` calls on a single filter -/

theorem addMany_invariant (ds : List Bytes) (bf : BloomFilter) (d : Bytes)
    (hwf : WF bf) (hp : probesAll bf d) :
    WF (addMany bf ds) ∧ probesAll (addMany bf ds) d := by
  induction ds generalizing bf with
  | nil => exact ⟨hwf, hp⟩
  | cons d' t ih =>
    exact ih (bf.Add d') (WF_Add bf d' hwf) (probesAll_Add_mono bf d d' hp)

/-- The single-filter no-false-negative core: once `Add d` ran on a
well-formed filter, `Test d` is true after any further `Add` calls. -/
theorem single_no_false_negative (bf : BloomFilter) (d : Bytes) (ds : List Bytes)
    (hwf : WF bf) : (addMany (bf.Add d) ds).Test d = true := by
  have h := addMany_invariant ds (bf.Add d) d (WF_Add bf d hwf) (probesAll_Add_self bf d hwf)
  exact Test_true_of_probesAll _ _ h.2

/-! ### Lemmas about the scalable filter's layer loops -/

theorem addLoop_m (f : BloomFilter) (d : Bytes) (j : Nat) : (addLoop f d j).m = f.m := by
  induction j generalizing f with
  | zero => rfl
  | succ i ih => rw [addLoop, ih, Add_m]

theorem addLoop_k (f : BloomFilter) (d : Bytes) (j : Nat) : (addLoop f d j).k = f.k := by
  induction j generalizing f with
  | zero => rfl
  | succ i ih => rw [addLoop, ih, Add_k]

theorem addLoop_hashes (f : BloomFilter) (d : Bytes) (j : Nat) :
    (addLoop f d j).hashes = f.hashes := by
  induction j generalizing f with
  | zero => rfl
  | succ i ih => rw [addLoop, ih, Add_hashes]

theorem addLoop_mutex (f : BloomFilter) (d : Bytes) (j : Nat) :
    (addLoop f d j).mutex = f.mutex := by
  induction j generalizing f with
  | zero => rfl
  | succ i ih => rw [addLoop, ih, Add_mutex]

theorem WF_addLoop (f : BloomFilter) (d : Bytes) (j : Nat) (hwf : WF f) :
    WF (addLoop f d j) := by
  induction j generalizing f with
  | zero => exact hwf
  | succ i ih => rw [addLoop]; exact ih _ (WF_Add f d hwf)

theorem probesAll_addLoop_mono (f : BloomFilter) (d x : Bytes) (j : Nat)
    (hp : probesAll f x) : probesAll (addLoop f d j) x := by
  induction j generalizing f with
  | zero => exact hp
  | succ i ih => rw [addLoop]; exact ih _ (probesAll_Add_mono f x d hp)

theorem probesAll_addLoop_self (f : BloomFilter) (x : Bytes) (j : Nat) (hwf : WF f) :
    probesAll (addLoop f x (j + 1)) x := by
  rw [addLoop]
  exact probesAll_addLoop_mono _ _ _ _ (probesAll_Add_self f x hwf)

theorem testLoop_true (f : BloomFilter) (x : Bytes) (ht : f.Test x = true) (j : Nat) :
    testLoop f x j = true := by
  induction j with
  | zero => rfl
  | succ i ih => rw [testLoop, ht, ih]; rfl

/-- On a layer list without nil pointers, the `Add` layer loop adds the data
`k` times to every layer and completes. -/
theorem addLayers_all_some (d : Bytes) (fs : List (Option BloomFilter))
    (hsome : ∀ of ∈ fs, of.isSome) :
    addLayers d fs = (fs.map (Option.map fun f => addLoop f d f.k), true) := by
  induction fs with
  | nil => rfl
  | cons of t ih =>
    cases of with
    | none => exact absurd (hsome none (List.mem_cons_self _ _)) (by simp)
    | some f =>
      rw [addLayers]
      rw [ih fun o ho => hsome o (List.mem_cons_of_mem _ ho)]
      rfl

theorem addLayers_cons_some (d : Bytes) (f : BloomFilter) (rest : List (Option BloomFilter)) :
    addLayers d (some f :: rest) =
      (some (addLoop f d f.k) :: (addLayers d rest).1, (addLayers d rest).2) := rfl

theorem getLast?_all_some {l : List (Option BloomFilter)}
    (hsome : ∀ of ∈ l, of.isSome) (hne : l ≠ []) : ∃ g, l.getLast? = some (some g) := by
  rw [List.getLast?_eq_getLast_of_ne_nil hne]
  have hmem := List.getLast_mem hne
  rcases hl : l.getLast hne with _ | g
  · exact absurd (hsome _ hmem) (by rw [hl]; simp)
  · exact ⟨g, rfl⟩

/-- Full characterization of a completed `ScalableBloomFilter.Add` on a
structure whose layers are all non-nil: the data is added (`k` times) to
every existing layer, `n` is incremented, and exactly when the new count
exceeds `m_last * Log(growth) / Log 2` one layer —
`New(Params{N: n, FalsePositiveRate: fpRate * growth^(number of existing
layers)})`, with the error dropped — is appended. -/
theorem Add_spec (murmur : SeedHash) (s : ScalableBloomFilter) (d : Bytes)
    (hsome : ∀ of ∈ s.filters, of.isSome) (cf : BloomFilter)
    (hlast : s.filters.getLast? = some (some cf)) :
    ScalableBloomFilter.Add murmur s d =
      (true,
        if ((s.n + 1 : Nat) : ℝ) > (cf.m : ℝ) * Real.log s.fpGrowth / Real.log 2 then
          { s with
              filters := s.filters.map (Option.map fun f => addLoop f d f.k) ++
                [(New murmur { N := s.n + 1, FalsePositiveRate := s.fpRate * s.fpGrowth ^ s.filters.length }).toOption],
              n := s.n + 1 }
        else
          { s with filters := s.filters.map (Option.map fun f => addLoop f d f.k),
                   n := s.n + 1 }) := by
  have hmap := addLayers_all_some d s.filters hsome
  unfold ScalableBloomFilter.Add
  rw [hmap]
  dsimp only
  rw [if_neg (by simp)]
  rw [List.getLast?_map, hlast]
  dsimp only [Option.map_some']
  rw [addLoop_m, List.length_map]
  by_cases hc : ((s.n + 1 : Nat) : ℝ) > (cf.m : ℝ) * Real.log s.fpGrowth / Real.log 2
  · rw [if_pos hc, if_pos hc]
  · rw [if_neg hc, if_neg hc]

/-- Whatever happens inside `Add` (completion, growth, or a panic at a nil
layer), the first layer of the result is the first layer of the input with
the data added `k` times. -/
theorem Add_head (murmur : SeedHash) (s : ScalableBloomFilter) (d : Bytes)
    (f : BloomFilter) (rest : List (Option BloomFilter)) (hf : s.filters = some f :: rest) :
    ∃ rest', ((ScalableBloomFilter.Add murmur s d).2).filters =
      some (addLoop f d f.k) :: rest' := by
  unfold ScalableBloomFilter.Add
  rw [hf, addLayers_cons_some]
  dsimp only
  split
  · exact ⟨_, rfl⟩
  · split
    · exact ⟨_, rfl⟩
    · exact ⟨_, rfl⟩
    · split
      · exact ⟨_, List.cons_append _ _ _⟩
      · exact ⟨_, rfl⟩

theorem headOk_Add (murmur : SeedHash) (s : ScalableBloomFilter) (d x : Bytes)
    (h : headOk s x) : headOk ((ScalableBloomFilter.Add murmur s d).2) x := by
  obtain ⟨f, rest, hf, hwf, hv⟩ := h
  obtain ⟨rest', hr⟩ := Add_head murmur s d f rest hf
  refine ⟨addLoop f d f.k, rest', hr, WF_addLoop _ _ _ hwf, ?_⟩
  rcases hv with hk | hp
  · exact Or.inl (by rw [addLoop_k]; exact hk)
  · exact Or.inr (probesAll_addLoop_mono _ _ _ _ hp)

theorem headOk_evolve (murmur : SeedHash) (ds : List Bytes) :
    ∀ (s : ScalableBloomFilter) (x : Bytes), headOk s x → headOk (evolve murmur s ds) x := by
  induction ds with
  | nil => exact fun s x h => h
  | cons d t ih => exact fun s x h => ih _ _ (headOk_Add murmur s d x h)

theorem headOk_after_add (murmur : SeedHash) (s : ScalableBloomFilter) (x : Bytes)
    (f : BloomFilter) (rest : List (Option BloomFilter))
    (hf : s.filters = some f :: rest) (hwf : WF f) :
    headOk ((ScalableBloomFilter.Add murmur s x).2) x := by
  obtain ⟨rest', hr⟩ := Add_head murmur s x f rest hf
  refine ⟨addLoop f x f.k, rest', hr, WF_addLoop _ _ _ hwf, ?_⟩
  cases hk : f.k with
  | zero => exact Or.inl (by rw [addLoop_k]; exact hk)
  | succ j => exact Or.inr (probesAll_addLoop_self f x j hwf)

theorem Test_of_headOk (s : ScalableBloomFilter) (x : Bytes) (h : headOk s x) :
    s.Test x = some true := by
  obtain ⟨f, rest, hf, _, hv⟩ := h
  unfold ScalableBloomFilter.Test
  rw [hf, testLayers]
  rw [if_pos ?_]
  rcases hv with hk | hp
  · rw [hk]; rfl
  · exact testLoop_true f x (Test_true_of_probesAll f x hp) f.k

/-! ### Completion of `ScalableBloomFilter.Add` -/

theorem Add_completed (murmur : SeedHash) (s : ScalableBloomFilter) (d : Bytes)
    (hsome : ∀ of ∈ s.filters, of.isSome) (hne : s.filters ≠ []) :
    (ScalableBloomFilter.Add murmur s d).1 = true := by
  obtain ⟨cf, hlast⟩ := getLast?_all_some hsome hne
  rw [Add_spec murmur s d hsome cf hlast]

/-! ### What the constructors guarantee structurally -/

theorem getOptimalParams_fst (n : Nat) (p : ℝ) :
    (getOptimalParams n p).1 =
      if (⌈(-1 : ℝ) * (n : ℝ) * Real.log p / (Real.log 2) ^ 2⌉).toNat = 0 then 1
      else (⌈(-1 : ℝ) * (n : ℝ) * Real.log p / (Real.log 2) ^ 2⌉).toNat := rfl

theorem getOptimalParams_snd (n : Nat) (p : ℝ) :
    (getOptimalParams n p).2 =
      if (⌈((getOptimalParams n p).1 : ℝ) / (n : ℝ) * Real.log 2⌉).toNat = 0 then 1
      else (⌈((getOptimalParams n p).1 : ℝ) / (n : ℝ) * Real.log 2⌉).toNat := rfl

theorem getOptimalParams_fst_pos (n : Nat) (p : ℝ) : 1 ≤ (getOptimalParams n p).1 := by
  rw [getOptimalParams_fst]
  split
  · exact le_refl 1
  · next h => omega

theorem getOptimalParams_snd_pos (n : Nat) (p : ℝ) : 1 ≤ (getOptimalParams n p).2 := by
  rw [getOptimalParams_snd]
  split
  · exact le_refl 1
  · next h => omega

theorem New_ok_WF (murmur : SeedHash) (p : Params) (bf : BloomFilter)
    (h : New murmur p = .ok bf) : WF bf := by
  unfold New at h
  dsimp only at h
  split at h
  · exact absurd h (by simp)
  · split at h
    · exact absurd h (by simp)
    · split at h
      · exact absurd h (by simp)
      · split at h
        · exact absurd h (by simp)
        · injection h with h2
          subst h2
          exact ⟨getOptimalParams_fst_pos _ _, by simp⟩

theorem NewScalable_ok (murmur : SeedHash) (ps : ParamsScalable) (s : ScalableBloomFilter)
    (h : NewScalable murmur ps = .ok s) :
    ∃ bf, s.filters = [some bf] ∧ WF bf ∧ s.n = 0 := by
  unfold NewScalable at h
  dsimp only at h
  split at h
  · exact absurd h (by simp)
  · split at h
    · exact absurd h (by simp)
    · split at h
      · exact absurd h (by simp)
      · split at h
        · exact absurd h (by simp)
        · next bf heq =>
          injection h with h2
          subst h2
          exact ⟨bf, rfl, New_ok_WF _ _ _ heq, rfl⟩

/-! ### Claim C1 -/

/-- C1: no false negatives. For a single `BloomFilter` that is well formed
(as every filter produced by `New` is), once `Add x` ran, `Test x` returns
true after any sequence of further `Add` calls. For a `ScalableBloomFilter`
whose oldest layer is well formed (as `NewScalable` guarantees), once
`Add x` completed successfully, every subsequent `Test x` returns true
(`some true`: the call returns, with value true) after any further `Add`
calls — even ones that grow the structure or panic midway. -/
theorem claim_C1_no_false_negatives :
    (∀ (bf : BloomFilter) (x : Bytes) (ds : List Bytes),
       WF bf → (addMany (bf.Add x) ds).Test x = true) ∧
    (∀ (murmur : SeedHash) (s : ScalableBloomFilter) (x : Bytes) (ds : List Bytes)
       (f : BloomFilter) (rest : List (Option BloomFilter)),
       s.filters = some f :: rest → WF f →
       (ScalableBloomFilter.Add murmur s x).1 = true →
       (evolve murmur (ScalableBloomFilter.Add murmur s x).2 ds).Test x = some true) ∧
    (∀ (murmur : SeedHash) (p : Params) (bf : BloomFilter),
       New murmur p = .ok bf → WF bf) ∧
    (∀ (murmur : SeedHash) (ps : ParamsScalable) (s : ScalableBloomFilter),
       NewScalable murmur ps = .ok s → ∃ f, s.filters = some f :: [] ∧ WF f) := by
  refine ⟨fun bf x ds hwf => single_no_false_negative bf x ds hwf, ?_, ?_, ?_⟩
  · intro murmur s x ds f rest hf hwf _
    exact Test_of_headOk _ _
      (headOk_evolve murmur ds _ x (headOk_after_add murmur s x f rest hf hwf))
  · exact fun murmur p bf h => New_ok_WF murmur p bf h
  · intro murmur ps s h
    obtain ⟨bf, hfs, hwf, _⟩ := NewScalable_ok murmur ps s h
    exact ⟨bf, hfs, hwf⟩

/-- Witness for C1 at concrete instances. -/
theorem claim_C1_witness :
    WF bfW ∧
    (addMany (bfW.Add [0]) [[1]]).Test [0] = true ∧
    (evolve murmur0 (ScalableBloomFilter.Add murmur0 sbfW [0]).2 [[1]]).Test [0] = some true := by
  refine ⟨by simp [WF, bfW], claim_C1_no_false_negatives.1 bfW [0] [[1]] (by simp [WF, bfW]), ?_⟩
  exact claim_C1_no_false_negatives.2.1 murmur0 sbfW [0] [[1]] bfW [] rfl (by simp [WF, bfW])
    (Add_completed murmur0 sbfW [0] (by simp [sbfW]) (by simp [sbfW]))

/-! ### Claim C3 -/

/-- C3: a completed `Add x` on a scalable filter (all of whose layers are
real, non-nil filters) returns without error, inserts `x` into every layer
that existed at the time of the call — each layer `i` of the result (below
the old layer count) is the old layer with `x` added `k_i` times, per the
source's inner loop — and increments `n` by exactly 1. -/
theorem claim_C3_add_inserts_everywhere_and_counts (murmur : SeedHash)
    (s : ScalableBloomFilter) (x : Bytes)
    (hsome : ∀ of ∈ s.filters, of.isSome) (hne : s.filters ≠ []) :
    (ScalableBloomFilter.Add murmur s x).1 = true ∧
    ((ScalableBloomFilter.Add murmur s x).2).n = s.n + 1 ∧
    ((ScalableBloomFilter.Add murmur s x).2).filters.take s.filters.length
      = s.filters.map (Option.map fun f => addLoop f x f.k) := by
  obtain ⟨cf, hlast⟩ := getLast?_all_some hsome hne
  rw [Add_spec murmur s x hsome cf hlast]
  refine ⟨rfl, ?_, ?_⟩
  · by_cases hc : ((s.n + 1 : Nat) : ℝ) > (cf.m : ℝ) * Real.log s.fpGrowth / Real.log 2
    · rw [if_pos hc]
    · rw [if_neg hc]
  · by_cases hc : ((s.n + 1 : Nat) : ℝ) > (cf.m : ℝ) * Real.log s.fpGrowth / Real.log 2
    · rw [if_pos hc]
      exact List.take_left' (List.length_map _ _)
    · rw [if_neg hc]
      conv_lhs => rw [← List.length_map s.filters (Option.map fun f => addLoop f x f.k)]
      exact List.take_length _

/-- Witness for C3 at a concrete instance. -/
theorem claim_C3_witness :
    (ScalableBloomFilter.Add murmur0 sbfW [0]).1 = true ∧
    ((ScalableBloomFilter.Add murmur0 sbfW [0]).2).n = sbfW.n + 1 ∧
    ((ScalableBloomFilter.Add murmur0 sbfW [0]).2).filters.take sbfW.filters.length
      = sbfW.filters.map (Option.map fun f => addLoop f [0] f.k) :=
  claim_C3_add_inserts_everywhere_and_counts murmur0 sbfW [0]
    (by simp [sbfW]) (by simp [sbfW])

/-! ### Field lemmas for the default application and mutex construction -/

theorem applyDefaults_N (murmur : SeedHash) (p : Params) :
    (applyDefaults murmur p).N = p.N := by
  unfold applyDefaults
  cases hh : p.Hasher <;> dsimp only <;> split <;> rfl

theorem applyDefaults_rate (murmur : SeedHash) (p : Params) :
    (applyDefaults murmur p).FalsePositiveRate = p.FalsePositiveRate := by
  unfold applyDefaults
  cases hh : p.Hasher <;> dsimp only <;> split <;> rfl

theorem applyDefaults_lock (murmur : SeedHash) (p : Params) :
    (applyDefaults murmur p).LockType = if p.LockType = 0 then 2 else p.LockType := by
  unfold applyDefaults
  cases hh : p.Hasher <;> dsimp only <;> split <;> rfl

theorem applyDefaults_hasher_isSome (murmur : SeedHash) (p : Params) :
    (applyDefaults murmur p).Hasher.isSome := by
  unfold applyDefaults
  cases hh : p.Hasher <;> dsimp only <;> split <;> simp [hh]

theorem applyDefaultsScalable_size (murmur : SeedHash) (p : ParamsScalable) :
    (applyDefaultsScalable murmur p).InitialSize = p.InitialSize := by
  unfold applyDefaultsScalable
  cases hh : p.Hasher <;> dsimp only <;> split <;> rfl

theorem applyDefaultsScalable_rate (murmur : SeedHash) (p : ParamsScalable) :
    (applyDefaultsScalable murmur p).FalsePositiveRate = p.FalsePositiveRate := by
  unfold applyDefaultsScalable
  cases hh : p.Hasher <;> dsimp only <;> split <;> rfl

theorem applyDefaultsScalable_growth (murmur : SeedHash) (p : ParamsScalable) :
    (applyDefaultsScalable murmur p).FalsePositiveGrowth = p.FalsePositiveGrowth := by
  unfold applyDefaultsScalable
  cases hh : p.Hasher <;> dsimp only <;> split <;> rfl

theorem applyDefaultsScalable_lock (murmur : SeedHash) (p : ParamsScalable) :
    (applyDefaultsScalable murmur p).LockType = if p.LockType = 0 then 2 else p.LockType := by
  unfold applyDefaultsScalable
  cases hh : p.Hasher <;> dsimp only <;> split <;> rfl

theorem NewMutex_ok (l : Nat) (h0 : l ≠ 0) (h3 : l ≤ 3) : ∃ mu, NewMutex l = .ok mu := by
  have h1 : 1 ≤ l := Nat.one_le_iff_ne_zero.mpr h0
  interval_cases l
  · exact ⟨none, rfl⟩
  · exact ⟨some .exclusive, rfl⟩
  · exact ⟨some .readWrite, rfl⟩

/-! ### Constructor success and failure -/

theorem New_err_N (murmur : SeedHash) (p : Params) (hN : p.N = 0) :
    New murmur p = .error .numberOfElementsZero := by
  unfold New
  dsimp only
  rw [applyDefaults_N, if_pos hN]

theorem New_err_rate (murmur : SeedHash) (p : Params) (hN : p.N ≠ 0)
    (hr : p.FalsePositiveRate ≤ 0 ∨ 1 ≤ p.FalsePositiveRate) :
    New murmur p = .error .falsePositiveRateRange := by
  unfold New
  dsimp only
  rw [applyDefaults_N, if_neg hN, applyDefaults_rate, if_pos hr]

theorem New_succeeds (murmur : SeedHash) (p : Params) (hN : p.N ≠ 0)
    (h0 : 0 < p.FalsePositiveRate) (h1 : p.FalsePositiveRate < 1) (hl : p.LockType ≤ 3) :
    ∃ bf, New murmur p = .ok bf := by
  have hs := applyDefaults_hasher_isSome murmur p
  obtain ⟨hasher, hh⟩ := Option.isSome_iff_exists.mp hs
  have hlock : (applyDefaults murmur p).LockType ≠ 0 ∧ (applyDefaults murmur p).LockType ≤ 3 := by
    rw [applyDefaults_lock]
    split
    · exact ⟨by norm_num, by norm_num⟩
    · next h => exact ⟨h, hl⟩
  obtain ⟨mu, hmu⟩ := NewMutex_ok _ hlock.1 hlock.2
  unfold New
  dsimp only
  rw [applyDefaults_N, if_neg hN, applyDefaults_rate,
    if_neg (by push_neg; exact ⟨h0, h1⟩), hh, hmu]
  exact ⟨_, rfl⟩

theorem NewScalable_err_size (murmur : SeedHash) (ps : ParamsScalable)
    (h : ps.InitialSize = 0) : NewScalable murmur ps = .error .scalableInitialSize := by
  unfold NewScalable
  dsimp only
  rw [applyDefaultsScalable_size, if_pos h]

theorem NewScalable_err_rate (murmur : SeedHash) (ps : ParamsScalable)
    (hN : ps.InitialSize ≠ 0)
    (hr : ps.FalsePositiveRate ≤ 0 ∨ 1 ≤ ps.FalsePositiveRate) :
    NewScalable murmur ps = .error .scalableFpRate := by
  unfold NewScalable
  dsimp only
  rw [applyDefaultsScalable_size, if_neg hN, applyDefaultsScalable_rate, if_pos hr]

theorem NewScalable_err_growth (murmur : SeedHash) (ps : ParamsScalable)
    (hN : ps.InitialSize ≠ 0) (h0 : 0 < ps.FalsePositiveRate) (h1 : ps.FalsePositiveRate < 1)
    (hg : ps.FalsePositiveGrowth ≤ 0) :
    NewScalable murmur ps = .error .scalableFpGrowth := by
  unfold NewScalable
  dsimp only
  rw [applyDefaultsScalable_size, if_neg hN, applyDefaultsScalable_rate,
    if_neg (by push_neg; exact ⟨h0, h1⟩), applyDefaultsScalable_growth, if_pos hg]

theorem NewScalable_succeeds (murmur : SeedHash) (ps : ParamsScalable)
    (hN : ps.InitialSize ≠ 0) (h0 : 0 < ps.FalsePositiveRate) (h1 : ps.FalsePositiveRate < 1)
    (hg : 0 < ps.FalsePositiveGrowth) (hl : ps.LockType ≤ 3) :
    ∃ s, NewScalable murmur ps = .ok s := by
  have hlock : (applyDefaultsScalable murmur ps).LockType ≤ 3 := by
    rw [applyDefaultsScalable_lock]
    split
    · norm_num
    · exact hl
  obtain ⟨bf, hbf⟩ := New_succeeds murmur
    { N := ps.InitialSize, FalsePositiveRate := ps.FalsePositiveRate,
      Hasher := (applyDefaultsScalable murmur ps).Hasher,
      LockType := (applyDefaultsScalable murmur ps).LockType }
    hN h0 h1 hlock
  unfold NewScalable
  dsimp only
  rw [applyDefaultsScalable_size, if_neg hN, applyDefaultsScalable_rate,
    if_neg (by push_neg; exact ⟨h0, h1⟩), applyDefaultsScalable_growth,
    if_neg (by push_neg; exact hg), hbf]
  exact ⟨_, rfl⟩

/-! ### Claim C7 -/

/-- C7: both constructors reject an element-count estimate of 0, a false
positive rate outside the open interval (0,1), and (scalable only) a
non-positive growth factor, each with the corresponding parameter error and
without producing an instance (`Except.error` carries no filter); with
valid parameters — including a recognized lock selector, 0..3 — they
succeed. -/
theorem claim_C7_constructor_validation :
    (∀ (murmur : SeedHash) (p : Params), p.N = 0 →
       New murmur p = .error .numberOfElementsZero) ∧
    (∀ (murmur : SeedHash) (p : Params), p.N ≠ 0 →
       p.FalsePositiveRate ≤ 0 ∨ 1 ≤ p.FalsePositiveRate →
       New murmur p = .error .falsePositiveRateRange) ∧
    (∀ (murmur : SeedHash) (p : Params), p.N ≠ 0 → 0 < p.FalsePositiveRate →
       p.FalsePositiveRate < 1 → p.LockType ≤ 3 → ∃ bf, New murmur p = .ok bf) ∧
    (∀ (murmur : SeedHash) (ps : ParamsScalable), ps.InitialSize = 0 →
       NewScalable murmur ps = .error .scalableInitialSize) ∧
    (∀ (murmur : SeedHash) (ps : ParamsScalable), ps.InitialSize ≠ 0 →
       ps.FalsePositiveRate ≤ 0 ∨ 1 ≤ ps.FalsePositiveRate →
       NewScalable murmur ps = .error .scalableFpRate) ∧
    (∀ (murmur : SeedHash) (ps : ParamsScalable), ps.InitialSize ≠ 0 →
       0 < ps.FalsePositiveRate → ps.FalsePositiveRate < 1 → ps.FalsePositiveGrowth ≤ 0 →
       NewScalable murmur ps = .error .scalableFpGrowth) ∧
    (∀ (murmur : SeedHash) (ps : ParamsScalable), ps.InitialSize ≠ 0 →
       0 < ps.FalsePositiveRate → ps.FalsePositiveRate < 1 → 0 < ps.FalsePositiveGrowth →
       ps.LockType ≤ 3 → ∃ s, NewScalable murmur ps = .ok s) :=
  ⟨New_err_N, New_err_rate, New_succeeds, NewScalable_err_size, NewScalable_err_rate,
   NewScalable_err_growth, NewScalable_succeeds⟩

/-- Witness for C7 at concrete parameters. -/
theorem claim_C7_witness :
    New murmur0 { N := 0, FalsePositiveRate := 1 / 2 } = .error .numberOfElementsZero ∧
    New murmur0 { N := 5, FalsePositiveRate := 2 } = .error .falsePositiveRateRange ∧
    (∃ bf, New murmur0 { N := 5, FalsePositiveRate := 1 / 2 } = .ok bf) ∧
    NewScalable murmur0 { InitialSize := 0, FalsePositiveRate := 1 / 2, FalsePositiveGrowth := 2 }
      = .error .scalableInitialSize ∧
    NewScalable murmur0 { InitialSize := 5, FalsePositiveRate := 0, FalsePositiveGrowth := 2 }
      = .error .scalableFpRate ∧
    NewScalable murmur0 { InitialSize := 5, FalsePositiveRate := 1 / 2, FalsePositiveGrowth := 0 }
      = .error .scalableFpGrowth ∧
    (∃ s, NewScalable murmur0 { InitialSize := 5, FalsePositiveRate := 1 / 2, FalsePositiveGrowth := 2 }
      = .ok s) := by
  refine ⟨claim_C7_constructor_validation.1 murmur0 _ rfl,
    claim_C7_constructor_validation.2.1 murmur0 _ (by norm_num) (by norm_num),
    claim_C7_constructor_validation.2.2.1 murmur0 _ (by norm_num) (by norm_num) (by norm_num)
      (by norm_num),
    claim_C7_constructor_validation.2.2.2.1 murmur0 _ rfl,
    claim_C7_constructor_validation.2.2.2.2.1 murmur0 _ (by norm_num) (by norm_num),
    claim_C7_constructor_validation.2.2.2.2.2.1 murmur0 _ (by norm_num) (by norm_num)
      (by norm_num) (by norm_num),
    claim_C7_constructor_validation.2.2.2.2.2.2 murmur0 _ (by norm_num) (by norm_num)
      (by norm_num) (by norm_num) (by norm_num)⟩

theorem probeIndexOk_of_WF (bf : BloomFilter) (hwf : WF bf) : probeIndexOk bf := by
  intro h _ d
  unfold probeIndex
  rw [hwf.2]
  exact probe_index_lt _ _ hwf.1

theorem WF_addMany (bf : BloomFilter) (ds : List Bytes) (hwf : WF bf) :
    WF (addMany bf ds) := by
  induction ds generalizing bf with
  | nil => exact hwf
  | cons d t ih => exact ih _ (WF_Add bf d hwf)

/-- C10: for every filter produced by `New` — which has `m ≥ 1` and a bit
array of `(m+63)/64` words — every word index `(digest mod m) / 64`
computed by `Add` and `Test` is strictly below the bit array length, now
and after any sequence of `Add` calls, so no bit-set access is out of
bounds. -/
theorem claim_C10_no_out_of_bounds (murmur : SeedHash) (p : Params) (bf : BloomFilter)
    (h : New murmur p = .ok bf) (ds : List Bytes) :
    probeIndexOk (addMany bf ds) :=
  probeIndexOk_of_WF _ (WF_addMany bf ds (New_ok_WF murmur p bf h))

/-- C5: for `n > 0` and `0 < p < 1`, `getOptimalParams` — a pure
function — returns exactly the spec's clamped ceiling formulas. -/
theorem claim_C5_optimal_parameter_formula (n : Nat) (p : ℝ)
    (hn : 0 < n) (h0 : 0 < p) (h1 : p < 1) :
    getOptimalParams n p = specOptimalParams n p := by
  have hlogp : Real.log p < 0 := Real.log_neg h0 h1
  have hlog2 : 0 < Real.log 2 := Real.log_pos (by norm_num)
  have hncast : 0 < (n : ℝ) := by exact_mod_cast hn
  have hargeq : (-1 : ℝ) * (n : ℝ) * Real.log p / (Real.log 2) ^ 2
      = -((n : ℝ) * Real.log p) / (Real.log 2) ^ 2 := by ring
  have harg : 0 < -((n : ℝ) * Real.log p) / (Real.log 2) ^ 2 := by
    apply div_pos
    · nlinarith
    · positivity
  have hm1 : 1 ≤ (⌈-((n : ℝ) * Real.log p) / (Real.log 2) ^ 2⌉).toNat := by
    have := Int.ceil_pos.mpr harg
    omega
  have hfst : (getOptimalParams n p).1
      = max 1 (⌈-((n : ℝ) * Real.log p) / (Real.log 2) ^ 2⌉).toNat := by
    rw [getOptimalParams_fst, hargeq]
    split
    · omega
    · omega
  have hspecfst : (specOptimalParams n p).1
      = max 1 (⌈-((n : ℝ) * Real.log p) / (Real.log 2) ^ 2⌉).toNat := rfl
  have hk1 : 1 ≤ (⌈((getOptimalParams n p).1 : ℝ) / (n : ℝ) * Real.log 2⌉).toNat := by
    have hmpos : 0 < ((getOptimalParams n p).1 : ℝ) := by
      exact_mod_cast getOptimalParams_fst_pos n p
    have : 0 < ((getOptimalParams n p).1 : ℝ) / (n : ℝ) * Real.log 2 :=
      mul_pos (div_pos hmpos hncast) hlog2
    have := Int.ceil_pos.mpr this
    omega
  refine Prod.ext ?_ ?_
  · rw [hfst, hspecfst]
  · have hsndspec : (specOptimalParams n p).2
        = max 1 (⌈((specOptimalParams n p).1 : ℝ) / (n : ℝ) * Real.log 2⌉).toNat := rfl
    rw [getOptimalParams_snd, hsndspec, hspecfst, hfst]
    rw [hfst] at hk1
    split
    · omega
    · omega

/-- Witness for C5 at `n = 1`, `p = 1/2`. -/
theorem claim_C5_witness :
    0 < 1 ∧ (0 < (1 / 2 : ℝ) ∧ (1 / 2 : ℝ) < 1) ∧
    getOptimalParams 1 (1 / 2) = specOptimalParams 1 (1 / 2) :=
  ⟨by norm_num, ⟨by norm_num, by norm_num⟩,
   claim_C5_optimal_parameter_formula 1 (1 / 2) (by norm_num) (by norm_num) (by norm_num)⟩

theorem testLayers_all_some (x : Bytes) (fs : List (Option BloomFilter))
    (hsome : ∀ of ∈ fs, of.isSome) :
    testLayers x fs = some (fs.any fun of => layerVerdict of x) := by
  induction fs with
  | nil => rfl
  | cons of t ih =>
    cases of with
    | none => exact absurd (hsome none (List.mem_cons_self _ _)) (by simp)
    | some f =>
      rw [testLayers, List.any_cons]
      by_cases hv : testLoop f x f.k = true
      · rw [if_pos hv]
        have : layerVerdict (some f) x = true := hv
        rw [this, Bool.true_or]
      · rw [if_neg hv, ih fun o ho => hsome o (List.mem_cons_of_mem _ ho)]
        have : layerVerdict (some f) x = false := by
          simp only [layerVerdict]
          exact Bool.eq_false_iff.mpr hv
        rw [this, Bool.false_or]

theorem testLoop_succ_iff (f : BloomFilter) (x : Bytes) (j : Nat) :
    testLoop f x (j + 1) = true ↔ f.Test x = true := by
  constructor
  · intro h
    rw [testLoop] at h
    exact (Bool.and_eq_true _ _).mp h |>.1
  · intro h
    exact testLoop_true f x h (j + 1)

/-- C6: on a scalable filter without nil layers, `Test` returns (does not
panic), its value is the oldest-first disjunction of the per-layer
verdicts — true iff some layer reports presence, false iff no layer does —
a layer with `k` hash functions reports presence exactly when all `k`
probed bits are set, and a true verdict on the first layer decides the
call without regard to the remaining layers. -/
theorem claim_C6_test_first_match (s : ScalableBloomFilter) (x : Bytes)
    (hsome : ∀ of ∈ s.filters, of.isSome) :
    (s.Test x = some (s.filters.any fun of => layerVerdict of x)) ∧
    (s.Test x = some true ↔ ∃ f, some f ∈ s.filters ∧ testLoop f x f.k = true) ∧
    (s.Test x = some false ↔ ∀ f : BloomFilter, some f ∈ s.filters → testLoop f x f.k = false) ∧
    (∀ f : BloomFilter, f.hashes.length = f.k →
       (testLoop f x f.k = true ↔ ∀ h ∈ f.hashes, probeSet f h x)) ∧
    (∀ (f : BloomFilter) (rest : List (Option BloomFilter)), testLoop f x f.k = true →
       testLayers x (some f :: rest) = some true) := by
  have hall := testLayers_all_some x s.filters hsome
  have htest : s.Test x = some (s.filters.any fun of => layerVerdict of x) := hall
  refine ⟨htest, ?_, ?_, ?_, ?_⟩
  · rw [htest]
    constructor
    · intro h
      have hany := Option.some_injective _ h
      obtain ⟨of, hmem, hv⟩ := List.any_eq_true.mp hany
      obtain ⟨f, rfl⟩ := Option.isSome_iff_exists.mp (hsome of hmem)
      exact ⟨f, hmem, hv⟩
    · rintro ⟨f, hmem, hv⟩
      have : s.filters.any (fun of => layerVerdict of x) = true :=
        List.any_eq_true.mpr ⟨some f, hmem, hv⟩
      rw [this]
  · rw [htest]
    constructor
    · intro h f hmem
      have hany := Option.some_injective _ h
      have hfalse := List.any_eq_false.mp hany (some f) hmem
      cases hv : testLoop f x f.k
      · rfl
      · exact absurd (show layerVerdict (some f) x = true from hv) hfalse
    · intro h
      have : s.filters.any (fun of => layerVerdict of x) = false := by
        rw [List.any_eq_false]
        intro of hmem
        obtain ⟨f, rfl⟩ := Option.isSome_iff_exists.mp (hsome of hmem)
        have := h f hmem
        simp only [layerVerdict]
        rw [this]
        simp
      rw [this]
  · intro f hlen
    cases hk : f.k with
    | zero =>
      constructor
      · intro _ h hmem
        rw [hk] at hlen
        rw [List.length_eq_zero.mp hlen] at hmem
        cases hmem
      · intro _
        rfl
    | succ j =>
      rw [testLoop_succ_iff, Test_probesAll_iff]
      exact Iff.rfl
  · intro f rest hv
    rw [testLayers, if_pos hv]

/-- Witness for C6 at a concrete instance. -/
theorem claim_C6_witness :
    sbfW.Test [0] = some (sbfW.filters.any fun of => layerVerdict of [0]) :=
  (claim_C6_test_first_match sbfW [0] (by simp [sbfW])).1

/-! ### Concrete evaluations of the parameter derivation -/

theorem ceil_toNat_eq {a : ℝ} {z : ℕ} (hz : 0 < z) (hlow : ((z : ℝ) - 1) < a)
    (hhigh : a ≤ (z : ℝ)) : (⌈a⌉).toNat = z := by
  have hc : ⌈a⌉ = (z : ℤ) := Int.ceil_eq_iff.mpr ⟨by push_cast; exact hlow, by push_cast; exact hhigh⟩
  rw [hc]
  omega

theorem gop_nine_tenths : getOptimalParams 1 (9 / 10) = (1, 1) := by
  have hlog2gt : (0.6931471803 : ℝ) < Real.log 2 := Real.log_two_gt_d9
  have hlog2lt : Real.log 2 < 0.6931471808 := Real.log_two_lt_d9
  have hlog2pos : (0 : ℝ) < Real.log 2 := by linarith
  have hneg : Real.log (9 / 10 : ℝ) = -Real.log (10 / 9 : ℝ) := by
    rw [show (9 / 10 : ℝ) = (10 / 9 : ℝ)⁻¹ by norm_num, Real.log_inv]
  have hpos : 0 < Real.log (10 / 9 : ℝ) := Real.log_pos (by norm_num)
  have hub : Real.log (10 / 9 : ℝ) ≤ 1 / 9 := by
    have := Real.log_le_sub_one_of_pos (show (0 : ℝ) < 10 / 9 by norm_num)
    linarith
  have hsq : (1 / 9 : ℝ) ≤ (Real.log 2) ^ 2 := by nlinarith
  have harg : (-1 : ℝ) * ((1 : ℕ) : ℝ) * Real.log (9 / 10) / (Real.log 2) ^ 2
      = Real.log (10 / 9) / (Real.log 2) ^ 2 := by
    rw [hneg]; push_cast; ring
  have hm : (⌈(-1 : ℝ) * ((1 : ℕ) : ℝ) * Real.log (9 / 10) / (Real.log 2) ^ 2⌉).toNat = 1 := by
    rw [harg]
    refine ceil_toNat_eq (by norm_num) ?_ ?_
    · push_cast
      have : (0 : ℝ) < Real.log (10 / 9) / (Real.log 2) ^ 2 := div_pos hpos (by positivity)
      linarith
    · push_cast
      rw [div_le_one (by positivity)]
      linarith
  have hfst : (getOptimalParams 1 (9 / 10)).1 = 1 := by
    rw [getOptimalParams_fst, hm]
    norm_num
  have hlog : (⌈Real.log 2⌉).toNat = 1 := by
    refine ceil_toNat_eq (by norm_num) (by push_cast; linarith) (by push_cast; linarith)
  have hsnd : (getOptimalParams 1 (9 / 10)).2 = 1 := by
    rw [getOptimalParams_snd, hfst]
    rw [show (((1 : ℕ) : ℝ)) / (((1 : ℕ) : ℝ)) * Real.log 2 = Real.log 2 by push_cast; ring]
    rw [hlog]
    norm_num
  exact Prod.ext hfst hsnd

theorem gop_half : getOptimalParams 1 (1 / 2) = (2, 2) := by
  have hlog2gt : (0.6931471803 : ℝ) < Real.log 2 := Real.log_two_gt_d9
  have hlog2lt : Real.log 2 < 0.6931471808 := Real.log_two_lt_d9
  have hlog2pos : (0 : ℝ) < Real.log 2 := by linarith
  have hhalf : Real.log (1 / 2 : ℝ) = -Real.log 2 := by
    rw [show (1 / 2 : ℝ) = (2 : ℝ)⁻¹ by norm_num, Real.log_inv]
  have harg : (-1 : ℝ) * ((1 : ℕ) : ℝ) * Real.log (1 / 2) / (Real.log 2) ^ 2
      = 1 / Real.log 2 := by
    rw [hhalf]
    push_cast
    field_simp
    ring
  have hm : (⌈(-1 : ℝ) * ((1 : ℕ) : ℝ) * Real.log (1 / 2) / (Real.log 2) ^ 2⌉).toNat = 2 := by
    rw [harg]
    refine ceil_toNat_eq (by norm_num) ?_ ?_
    · push_cast
      rw [show (2 : ℝ) - 1 = 1 by norm_num, lt_div_iff₀ hlog2pos, one_mul]
      linarith
    · push_cast
      rw [div_le_iff₀ hlog2pos]
      linarith
  have hfst : (getOptimalParams 1 (1 / 2)).1 = 2 := by
    rw [getOptimalParams_fst, hm]
    norm_num
  have hk : (⌈(2 : ℝ) * Real.log 2⌉).toNat = 2 := by
    refine ceil_toNat_eq (by norm_num) (by push_cast; linarith) (by push_cast; linarith)
  have hsnd : (getOptimalParams 1 (1 / 2)).2 = 2 := by
    rw [getOptimalParams_snd, hfst]
    rw [show (((2 : ℕ) : ℝ)) / (((1 : ℕ) : ℝ)) * Real.log 2 = (2 : ℝ) * Real.log 2 by
      push_cast; ring]
    rw [hk]
    norm_num
  exact Prod.ext hfst hsnd

theorem gop_quarter : getOptimalParams 1 (1 / 4) = (3, 3) := by
  have hlog2gt : (0.6931471803 : ℝ) < Real.log 2 := Real.log_two_gt_d9
  have hlog2lt : Real.log 2 < 0.6931471808 := Real.log_two_lt_d9
  have hlog2pos : (0 : ℝ) < Real.log 2 := by linarith
  have hquarter : Real.log (1 / 4 : ℝ) = -(2 * Real.log 2) := by
    rw [show (1 / 4 : ℝ) = ((2 : ℝ) ^ (2 : ℕ))⁻¹ by norm_num, Real.log_inv, Real.log_pow]
    push_cast
    ring
  have harg : (-1 : ℝ) * ((1 : ℕ) : ℝ) * Real.log (1 / 4) / (Real.log 2) ^ 2
      = 2 / Real.log 2 := by
    rw [hquarter]
    push_cast
    field_simp
    ring
  have hm : (⌈(-1 : ℝ) * ((1 : ℕ) : ℝ) * Real.log (1 / 4) / (Real.log 2) ^ 2⌉).toNat = 3 := by
    rw [harg]
    refine ceil_toNat_eq (by norm_num) ?_ ?_
    · push_cast
      rw [show (3 : ℝ) - 1 = 2 by norm_num, lt_div_iff₀ hlog2pos]
      linarith
    · push_cast
      rw [div_le_iff₀ hlog2pos]
      linarith
  have hfst : (getOptimalParams 1 (1 / 4)).1 = 3 := by
    rw [getOptimalParams_fst, hm]
    norm_num
  have hk : (⌈(3 : ℝ) * Real.log 2⌉).toNat = 3 := by
    refine ceil_toNat_eq (by norm_num) (by push_cast; linarith) (by push_cast; linarith)
  have hsnd : (getOptimalParams 1 (1 / 4)).2 = 3 := by
    rw [getOptimalParams_snd, hfst]
    rw [show (((3 : ℕ) : ℝ)) / (((1 : ℕ) : ℝ)) * Real.log 2 = (3 : ℝ) * Real.log 2 by
      push_cast; ring]
    rw [hk]
    norm_num
  exact Prod.ext hfst hsnd

/-! ### Generic evaluation of `New` and concrete scenario instances -/

theorem New_eval (murmur : SeedHash) (p : Params) (hasher : HasherFn) (mu : Option MutexKind)
    (hN : p.N ≠ 0) (h0 : 0 < p.FalsePositiveRate) (h1 : p.FalsePositiveRate < 1)
    (hh : (applyDefaults murmur p).Hasher = some hasher)
    (hmu : NewMutex (applyDefaults murmur p).LockType = .ok mu) :
    New murmur p = .ok
      { m := (getOptimalParams p.N p.FalsePositiveRate).1,
        bitSet := List.replicate (((getOptimalParams p.N p.FalsePositiveRate).1 + 63) / 64) 0,
        k := (getOptimalParams p.N p.FalsePositiveRate).2,
        hashes := hasher (getOptimalParams p.N p.FalsePositiveRate).2,
        mutex := mu } := by
  unfold New
  dsimp only
  rw [applyDefaults_N, applyDefaults_rate, if_neg hN,
    if_neg (by push_neg; exact ⟨h0, h1⟩), hh]
  dsimp only
  rw [hmu]

theorem NewA : New murmur0 pAinner = .ok bfA := by
  rw [New_eval murmur0 pAinner constHasher none (by norm_num [pAinner])
    (by norm_num [pAinner]) (by norm_num [pAinner]) rfl rfl]
  rw [show getOptimalParams pAinner.N pAinner.FalsePositiveRate = (1, 1) from gop_nine_tenths]
  rfl

theorem NewScalableA : NewScalable murmur0 pA = .ok sA0 := by
  unfold NewScalable
  dsimp only
  rw [applyDefaultsScalable_size, applyDefaultsScalable_rate, applyDefaultsScalable_growth,
    if_neg (by norm_num [pA]),
    if_neg (by push_neg; exact ⟨by norm_num [pA], by norm_num [pA]⟩),
    if_neg (by norm_num [pA])]
  rw [show New murmur0 { N := pA.InitialSize, FalsePositiveRate := pA.FalsePositiveRate, Hasher := (applyDefaultsScalable murmur0 pA).Hasher, LockType := (applyDefaultsScalable murmur0 pA).LockType } = .ok bfA from NewA]
  rfl

theorem NewBinner : New murmur0 pBinner = .ok bfB := by
  rw [New_eval murmur0 pBinner constHasher (some .readWrite) (by norm_num [pBinner])
    (by norm_num [pBinner]) (by norm_num [pBinner]) rfl rfl]
  rw [show getOptimalParams pBinner.N pBinner.FalsePositiveRate = (2, 2) from gop_half]
  rfl

theorem NewScalableB : NewScalable murmur0 pB = .ok sB0 := by
  unfold NewScalable
  dsimp only
  rw [applyDefaultsScalable_size, applyDefaultsScalable_rate, applyDefaultsScalable_growth,
    if_neg (by norm_num [pB]),
    if_neg (by push_neg; exact ⟨by norm_num [pB], by norm_num [pB]⟩),
    if_neg (by norm_num [pB])]
  rw [show New murmur0 { N := pB.InitialSize, FalsePositiveRate := pB.FalsePositiveRate, Hasher := (applyDefaultsScalable murmur0 pB).Hasher, LockType := (applyDefaultsScalable murmur0 pB).LockType } = .ok bfB from NewBinner]
  rfl

theorem NewB2 : New murmur0 pB2 = .ok bfB2 := by
  rw [New_eval murmur0 pB2 (NewMurMur3Hasher murmur0) (some .exclusive) (by norm_num [pB2])
    (by norm_num [pB2]) (by norm_num [pB2]) rfl rfl]
  rw [show getOptimalParams pB2.N pB2.FalsePositiveRate = (3, 3) from gop_quarter]
  rfl

theorem NewC : New murmur0 pC = .ok bfC := by
  rw [New_eval murmur0 pC emptyHasher none (by norm_num [pC])
    (by norm_num [pC]) (by norm_num [pC]) rfl rfl]
  rw [show getOptimalParams pC.N pC.FalsePositiveRate = (2, 2) from gop_half]
  rfl

theorem NewD : New murmur0 pD = .ok bfD := by
  rw [New_eval murmur0 pD (NewMurMur3Hasher murmur0) (some .exclusive) (by norm_num [pD])
    (by norm_num [pD]) (by norm_num [pD]) rfl rfl]
  rw [show getOptimalParams pD.N pD.FalsePositiveRate = (2, 2) from gop_half]
  rfl

/-- Witness for C10 at a concrete constructed filter. -/
theorem claim_C10_witness : probeIndexOk (addMany bfD [[0], [1]]) :=
  claim_C10_no_out_of_bounds murmur0 pD bfD NewD [[0], [1]]

/-! ### The growth conditions of the two scalable scenarios -/

theorem growA : ((sA0.n + 1 : Nat) : ℝ) > (bfA.m : ℝ) * Real.log sA0.fpGrowth / Real.log 2 := by
  show ((0 + 1 : Nat) : ℝ) > ((1 : Nat) : ℝ) * Real.log (6 / 5) / Real.log 2
  have hlog2pos : (0 : ℝ) < Real.log 2 := Real.log_pos (by norm_num)
  have h65 : Real.log (6 / 5 : ℝ) < Real.log 2 := by
    apply Real.log_lt_log (by norm_num) (by norm_num)
  push_cast
  rw [one_mul, gt_iff_lt, div_lt_one hlog2pos]
  exact h65

theorem growB : ((sB0.n + 1 : Nat) : ℝ) > (bfB.m : ℝ) * Real.log sB0.fpGrowth / Real.log 2 := by
  show ((0 + 1 : Nat) : ℝ) > ((2 : Nat) : ℝ) * Real.log (1 / 2) / Real.log 2
  have hlog2pos : (0 : ℝ) < Real.log 2 := Real.log_pos (by norm_num)
  have hhalf : Real.log (1 / 2 : ℝ) = -Real.log 2 := by
    rw [show (1 / 2 : ℝ) = (2 : ℝ)⁻¹ by norm_num, Real.log_inv]
  rw [hhalf]
  push_cast
  rw [show (2 : ℝ) * -Real.log 2 / Real.log 2 = -2 by field_simp]
  linarith

/-! ### Inversion of a successful `New` -/

theorem applyDefaults_hasher_none (murmur : SeedHash) (p : Params) (hp : p.Hasher = none) :
    (applyDefaults murmur p).Hasher = some (NewMurMur3Hasher murmur) := by
  unfold applyDefaults
  rw [hp]
  dsimp only
  split <;> rfl

theorem New_ok_inversion (murmur : SeedHash) (p : Params) (bf : BloomFilter)
    (h : New murmur p = .ok bf) :
    bf.m = (getOptimalParams p.N p.FalsePositiveRate).1 ∧
    bf.k = (getOptimalParams p.N p.FalsePositiveRate).2 ∧
    bf.bitSet = List.replicate ((bf.m + 63) / 64) 0 ∧
    (∃ hasher, (applyDefaults murmur p).Hasher = some hasher ∧ bf.hashes = hasher bf.k) ∧
    NewMutex (applyDefaults murmur p).LockType = .ok bf.mutex := by
  unfold New at h
  dsimp only at h
  rw [applyDefaults_N, applyDefaults_rate] at h
  split at h
  · exact absurd h (by simp)
  · split at h
    · exact absurd h (by simp)
    · split at h
      · exact absurd h (by simp)
      · next hasher hhash =>
        split at h
        · exact absurd h (by simp)
        · next mu hmu =>
          injection h with h2
          subst h2
          exact ⟨rfl, rfl, rfl, ⟨hasher, hhash, rfl⟩, by rw [hmu]⟩

/-! ### Claim C2 -/

/-- C2 (code bug, concrete evaluation): on scenario A, the first `Add`
triggers growth, the growth-time `New` fails (`27/25 ≥ 1`), and `Add`
ignores the error (`nbf, _ := New(...)`): the call completes reporting
success (the Go function returns a nil error on this path) while silently
appending a nil layer — the insertion is neither rejected nor is the error
surfaced, and the structure is left in a broken partially-updated state. -/
theorem claim_C2_growth_failure_silently_ignored :
    NewScalable murmur0 pA = .ok sA0 ∧
    New murmur0 { N := sA0.n + 1, FalsePositiveRate := sA0.fpRate * sA0.fpGrowth ^ sA0.filters.length } = .error .falsePositiveRateRange ∧
    (ScalableBloomFilter.Add murmur0 sA0 [0]).1 = true ∧
    ((ScalableBloomFilter.Add murmur0 sA0 [0]).2).filters.getLast? = some none := by
  have hsome : ∀ of ∈ sA0.filters, of.isSome := by simp [sA0]
  have hlast : sA0.filters.getLast? = some (some bfA) := rfl
  have hfail : New murmur0 { N := sA0.n + 1, FalsePositiveRate := sA0.fpRate * sA0.fpGrowth ^ sA0.filters.length } = .error .falsePositiveRateRange := by
    apply New_err_rate
    · simp
    · right
      show (1 : ℝ) ≤ sA0.fpRate * sA0.fpGrowth ^ sA0.filters.length
      norm_num [sA0]
  refine ⟨NewScalableA, hfail, ?_, ?_⟩
  · rw [Add_spec murmur0 sA0 [0] hsome bfA hlast]
  · rw [Add_spec murmur0 sA0 [0] hsome bfA hlast]
    dsimp only
    rw [if_pos growA]
    dsimp only
    rw [List.getLast?_concat, hfail]
    rfl

/-! ### Claim C4 -/

/-- C4 counterexample: on scenario A, the first `Add` appends a layer (the
layer count goes from 1 to 2), but the appended layer is nil — not a filter
sized by the optimal-parameter formula — because the growth-time `New`
failed and its error was dropped. This refutes the claim's clause that the
appended layer is always sized by the formula. -/
theorem claim_C4_counterexample :
    ((ScalableBloomFilter.Add murmur0 sA0 [0]).2).filters.length = sA0.filters.length + 1 ∧
    ((ScalableBloomFilter.Add murmur0 sA0 [0]).2).filters.getLast? = some none := by
  have hsome : ∀ of ∈ sA0.filters, of.isSome := by simp [sA0]
  have hlast : sA0.filters.getLast? = some (some bfA) := rfl
  have hfail : New murmur0 { N := sA0.n + 1, FalsePositiveRate := sA0.fpRate * sA0.fpGrowth ^ sA0.filters.length } = .error .falsePositiveRateRange := by
    apply New_err_rate
    · simp
    · right
      show (1 : ℝ) ≤ sA0.fpRate * sA0.fpGrowth ^ sA0.filters.length
      norm_num [sA0]
  rw [Add_spec murmur0 sA0 [0] hsome bfA hlast]
  dsimp only
  rw [if_pos growA]
  refine ⟨by simp, ?_⟩
  dsimp only
  rw [List.getLast?_concat, hfail]
  rfl

/-- C4 (amended): after a completed `Add`, exactly one layer is appended iff
the updated count `n` exceeds `m_last · ln(growthFactor) / ln 2`; existing
layers are never removed or resized (each keeps its position, with the data
added into it); the appended layer is
`New(Params{N: n, FalsePositiveRate: p₀ · growthFactor^i})` with `i` the
0-based index of the new layer — and, when that construction succeeds, it
is sized by `getOptimalParams` at exactly those arguments; when it fails, a
nil layer is appended instead (see C2). -/
theorem claim_C4_growth_protocol (murmur : SeedHash) (s : ScalableBloomFilter) (x : Bytes)
    (hsome : ∀ of ∈ s.filters, of.isSome) (cf : BloomFilter)
    (hlast : s.filters.getLast? = some (some cf)) :
    ((ScalableBloomFilter.Add murmur s x).2).filters.length
      = s.filters.length + (if ((s.n + 1 : Nat) : ℝ) > (cf.m : ℝ) * Real.log s.fpGrowth / Real.log 2 then 1 else 0) ∧
    ((ScalableBloomFilter.Add murmur s x).2).filters.take s.filters.length
      = s.filters.map (Option.map fun f => addLoop f x f.k) ∧
    (((s.n + 1 : Nat) : ℝ) > (cf.m : ℝ) * Real.log s.fpGrowth / Real.log 2 →
      ((ScalableBloomFilter.Add murmur s x).2).filters.getLast?
        = some ((New murmur { N := s.n + 1, FalsePositiveRate := s.fpRate * s.fpGrowth ^ s.filters.length }).toOption) ∧
      (∀ nf, New murmur { N := s.n + 1, FalsePositiveRate := s.fpRate * s.fpGrowth ^ s.filters.length } = .ok nf →
        nf.m = (getOptimalParams (s.n + 1) (s.fpRate * s.fpGrowth ^ s.filters.length)).1 ∧
        nf.k = (getOptimalParams (s.n + 1) (s.fpRate * s.fpGrowth ^ s.filters.length)).2)) := by
  rw [Add_spec murmur s x hsome cf hlast]
  dsimp only
  by_cases hc : ((s.n + 1 : Nat) : ℝ) > (cf.m : ℝ) * Real.log s.fpGrowth / Real.log 2
  · rw [if_pos hc, if_pos hc]
    refine ⟨by simp, List.take_left' (List.length_map _ _), fun _ => ⟨List.getLast?_concat _, ?_⟩⟩
    intro nf hnf
    have hinv := New_ok_inversion murmur _ nf hnf
    exact ⟨hinv.1, hinv.2.1⟩
  · rw [if_neg hc, if_neg hc]
    refine ⟨by simp, ?_, fun hcc => absurd hcc hc⟩
    conv_lhs => rw [← List.length_map s.filters (Option.map fun f => addLoop f x f.k)]
    exact List.take_length _

/-- Witness for C4 (amended) at scenario B. -/
theorem claim_C4_witness :
    ((ScalableBloomFilter.Add murmur0 sB0 [0]).2).filters.length
      = sB0.filters.length + (if ((sB0.n + 1 : Nat) : ℝ) > (bfB.m : ℝ) * Real.log sB0.fpGrowth / Real.log 2 then 1 else 0) ∧
    ((ScalableBloomFilter.Add murmur0 sB0 [0]).2).filters.take sB0.filters.length
      = sB0.filters.map (Option.map fun f => addLoop f [0] f.k) ∧
    (((sB0.n + 1 : Nat) : ℝ) > (bfB.m : ℝ) * Real.log sB0.fpGrowth / Real.log 2 →
      ((ScalableBloomFilter.Add murmur0 sB0 [0]).2).filters.getLast?
        = some ((New murmur0 { N := sB0.n + 1, FalsePositiveRate := sB0.fpRate * sB0.fpGrowth ^ sB0.filters.length }).toOption) ∧
      (∀ nf, New murmur0 { N := sB0.n + 1, FalsePositiveRate := sB0.fpRate * sB0.fpGrowth ^ sB0.filters.length } = .ok nf →
        nf.m = (getOptimalParams (sB0.n + 1) (sB0.fpRate * sB0.fpGrowth ^ sB0.filters.length)).1 ∧
        nf.k = (getOptimalParams (sB0.n + 1) (sB0.fpRate * sB0.fpGrowth ^ sB0.filters.length)).2)) :=
  claim_C4_growth_protocol murmur0 sB0 [0] (by simp [sB0]) bfB rfl

/-! ### Claim C8 -/

/-- C8 counterexample: with an injected provider that returns no hash
functions at all, `New` still succeeds — the constructed filter has `k = 2`
but 0 usable hash functions, and no error of any kind is raised. This
refutes the claim that construction fails when the provider returns fewer
than `k` usable functions. -/
theorem claim_C8_counterexample :
    (New murmur0 pC).map (fun bf => (bf.hashes.length, bf.k)) = .ok (0, 2) := by
  rw [NewC]
  rfl

/-- C8 (amended): `New` performs no validation of the provider's output —
it stores whatever list `GetHashes(k)` returns; only when the hasher was
nil (so the default murmur3 provider is used) is the list guaranteed to
have exactly `k` functions. -/
theorem claim_C8_no_provider_count_validation (murmur : SeedHash) (p : Params)
    (bf : BloomFilter) (h : New murmur p = .ok bf) :
    (∃ hasher, (applyDefaults murmur p).Hasher = some hasher ∧ bf.hashes = hasher bf.k) ∧
    (p.Hasher = none → bf.hashes = NewMurMur3Hasher murmur bf.k ∧ bf.hashes.length = bf.k) := by
  have hinv := New_ok_inversion murmur p bf h
  refine ⟨hinv.2.2.2.1, ?_⟩
  intro hnone
  obtain ⟨hasher, hh, hbf⟩ := hinv.2.2.2.1
  rw [applyDefaults_hasher_none murmur p hnone] at hh
  injection hh with hh2
  rw [← hh2] at hbf
  refine ⟨hbf, ?_⟩
  rw [hbf]
  simp [NewMurMur3Hasher]

/-- Witness for C8 (amended) at scenario D (default provider). -/
theorem claim_C8_witness :
    bfD.hashes = NewMurMur3Hasher murmur0 bfD.k ∧ bfD.hashes.length = bfD.k :=
  (claim_C8_no_provider_count_validation murmur0 pD bfD NewD).2 rfl

/-! ### Claim C9 -/

/-- C9 counterexample: scenario B is constructed with the ReadWriteLock
policy (and an injected provider), but the layer appended by the first
`Add`'s growth carries the default exclusive lock: the two layers' lock
policies differ, refuting the claim that every appended layer uses the
same provider and lock policy as the construction-time ones. -/
theorem claim_C9_counterexample :
    ((ScalableBloomFilter.Add murmur0 sB0 [0]).2).filters.map (Option.map BloomFilter.mutex)
      = [some (some .readWrite), some (some .exclusive)] := by
  have hsome : ∀ of ∈ sB0.filters, of.isSome := by simp [sB0]
  have hlast : sB0.filters.getLast? = some (some bfB) := rfl
  have hrp : ({ N := sB0.n + 1, FalsePositiveRate := sB0.fpRate * sB0.fpGrowth ^ sB0.filters.length } : Params) = pB2 := by
    norm_num [sB0, pB2]
  rw [Add_spec murmur0 sB0 [0] hsome bfB hlast]
  dsimp only
  rw [if_pos growB]
  dsimp only
  rw [hrp, NewB2]
  show ((sB0.filters.map (Option.map fun f => addLoop f [0] f.k)) ++ [some bfB2]).map (Option.map BloomFilter.mutex) = _
  simp only [sB0, List.map_append, List.map_map, List.map_cons, List.map_nil,
    Function.comp, Option.map_some']
  rw [addLoop_mutex]
  rfl

/-- C9 (amended): whenever growth triggers and the growth-time construction
succeeds, the appended layer uses the DEFAULT murmur3 hash provider and the
DEFAULT exclusive lock — `Add` passes neither the construction-time
provider nor the lock policy to `New`. Only the first layer uses the
injected provider and lock policy. -/
theorem claim_C9_growth_layer_uses_defaults (murmur : SeedHash) (s : ScalableBloomFilter)
    (x : Bytes) (hsome : ∀ of ∈ s.filters, of.isSome) (cf : BloomFilter)
    (hlast : s.filters.getLast? = some (some cf))
    (hgrow : ((s.n + 1 : Nat) : ℝ) > (cf.m : ℝ) * Real.log s.fpGrowth / Real.log 2)
    (nf : BloomFilter)
    (hnew : New murmur { N := s.n + 1, FalsePositiveRate := s.fpRate * s.fpGrowth ^ s.filters.length } = .ok nf) :
    ((ScalableBloomFilter.Add murmur s x).2).filters.getLast? = some (some nf) ∧
    nf.mutex = some .exclusive ∧
    nf.hashes = NewMurMur3Hasher murmur nf.k := by
  have hinv := New_ok_inversion murmur _ nf hnew
  refine ⟨?_, ?_, ?_⟩
  · rw [Add_spec murmur s x hsome cf hlast]
    dsimp only
    rw [if_pos hgrow]
    dsimp only
    rw [List.getLast?_concat, hnew]
    rfl
  · have hmu := hinv.2.2.2.2
    rw [show (applyDefaults murmur { N := s.n + 1, FalsePositiveRate := s.fpRate * s.fpGrowth ^ s.filters.length }).LockType = 2 from by rw [applyDefaults_lock]; rfl] at hmu
    have h2 : (Except.ok (some MutexKind.exclusive) : Except GoErr (Option MutexKind)) = .ok nf.mutex := hmu
    injection h2 with h3
    exact h3.symm
  · obtain ⟨hasher, hh, hbf⟩ := hinv.2.2.2.1
    rw [applyDefaults_hasher_none murmur _ rfl] at hh
    injection hh with hh2
    rw [← hh2] at hbf
    exact hbf

/-- Witness for C9 (amended) at scenario B. -/
theorem claim_C9_witness :
    ((ScalableBloomFilter.Add murmur0 sB0 [0]).2).filters.getLast? = some (some bfB2) ∧
    bfB2.mutex = some .exclusive ∧
    bfB2.hashes = NewMurMur3Hasher murmur0 bfB2.k := by
  have hrp : ({ N := sB0.n + 1, FalsePositiveRate := sB0.fpRate * sB0.fpGrowth ^ sB0.filters.length } : Params) = pB2 := by
    norm_num [sB0, pB2]
  exact claim_C9_growth_layer_uses_defaults murmur0 sB0 [0] (by simp [sB0]) bfB rfl growB
    bfB2 (by rw [hrp]; exact NewB2)

end GoBloom
